import Mathlib

/-!
# Verification of the nodb embedded key-value store

A shallow embedding of the Rust crate `nodb` (src/src/nodb.rs, src/src/ser/*,
src/src/crypto/b64.rs) in Lean 4, together with theorems settling the frozen
claims about its specification.

Modelling conventions:

* Rust `HashMap<String, V>` is modelled as an association list
  `List (String × V)`; `insert` places the new binding in front after erasing
  the old one, `remove` erases, `get` finds the first binding.  Lookup-level
  (extensional) equality of maps corresponds to `HashMap` equality.
* Bytes (`Vec<u8>`) are `List Nat`; where byte-ness matters a `< 256` bound is
  an explicit hypothesis.
* The external serde back-ends (serde_json, bincode, pot, ...) are not part of
  this repository; they are abstracted as a `PairCodec` (whole-store payload
  codec) or as the fields of `Ser` (value-level codec).  A concrete executable
  instance (`unaryCodec`) with a proven round-trip law stands in for them in
  witnesses and counterexamples.
* The `base64` crate's STANDARD engine, used by `src/src/crypto/b64.rs`, is
  modelled bit-faithfully by `b64encode` / `b64decode` below.
-/

namespace NodbModel

/-! ## Association-list model of `HashMap` -/

/-- `HashMap::get` : first binding for `key`. -/
def lookupMap {α : Type} : List (String × α) → String → Option α
  | [], _ => none
  | (k, v) :: rest, key => if k = key then some v else lookupMap rest key

/-- `HashMap::remove` (value-discarding part): erase every binding for `key`.
On the no-duplicate states reachable in the model this is exactly one erase. -/
def removeKey {α : Type} (m : List (String × α)) (key : String) : List (String × α) :=
  m.filter (fun p => p.1 ≠ key)

/-- `HashMap::insert` (value-discarding part): bind `key` to `v`. -/
def insertKey {α : Type} (m : List (String × α)) (key : String) (v : α) :
    List (String × α) :=
  (key, v) :: removeKey m key

/-- `HashMap::contains_key`. -/
def containsKey {α : Type} (m : List (String × α)) (key : String) : Bool :=
  (lookupMap m key).isSome

theorem lookupMap_removeKey_self {α : Type} (m : List (String × α)) (key : String) :
    lookupMap (removeKey m key) key = none := by
  induction m with
  | nil => rfl
  | cons p rest ih =>
    obtain ⟨pk, pv⟩ := p
    by_cases hpk : pk = key
    · simpa [removeKey, List.filter, hpk] using ih
    · simpa [removeKey, List.filter, hpk, lookupMap] using ih

theorem lookupMap_removeKey_ne {α : Type} (m : List (String × α)) (key k : String)
    (hk : k ≠ key) : lookupMap (removeKey m key) k = lookupMap m k := by
  induction m with
  | nil => rfl
  | cons p rest ih =>
    obtain ⟨pk, pv⟩ := p
    by_cases hpk : pk = key
    · subst hpk
      have hpkk : ¬(pk = k) := fun h => hk (h ▸ rfl)
      simp only [removeKey, List.filter] at ih ⊢
      simpa [lookupMap, hpkk] using ih
    · simp only [removeKey, List.filter] at ih ⊢
      by_cases hpkk : pk = k
      · subst hpkk
        simp [hpk, lookupMap]
      · simpa [hpk, lookupMap, hpkk] using ih

theorem lookupMap_removeKey {α : Type} (m : List (String × α)) (key k : String) :
    lookupMap (removeKey m key) k = if k = key then none else lookupMap m k := by
  by_cases hk : k = key
  · simp [hk, lookupMap_removeKey_self]
  · simp [hk, lookupMap_removeKey_ne _ _ _ hk]

theorem lookupMap_insertKey {α : Type} (m : List (String × α)) (key k : String) (v : α) :
    lookupMap (insertKey m key v) k = if k = key then some v else lookupMap m k := by
  by_cases hk : k = key
  · subst hk
    simp [insertKey, lookupMap]
  · simp [insertKey, lookupMap, lookupMap_removeKey, hk]
    intro h
    exact absurd h.symm hk

theorem lookupMap_insertKey_self {α : Type} (m : List (String × α)) (key : String) (v : α) :
    lookupMap (insertKey m key v) key = some v := by
  simp [lookupMap_insertKey]

/-! ## Base64 (STANDARD alphabet, padded) — model of the `base64` crate used by
`src/src/crypto/b64.rs` (`B64::encrypt` / `B64::decrypt`). -/

/-- ASCII code of the STANDARD base64 alphabet character for a 6-bit value. -/
def b64Char (n : Nat) : Nat :=
  if n < 26 then 65 + n
  else if n < 52 then 97 + (n - 26)
  else if n < 62 then 48 + (n - 52)
  else if n = 62 then 43
  else 47

/-- Inverse alphabet: 6-bit value of an ASCII code, `none` off the alphabet. -/
def b64CharInv (c : Nat) : Option Nat :=
  if 65 ≤ c ∧ c ≤ 90 then some (c - 65)
  else if 97 ≤ c ∧ c ≤ 122 then some (26 + (c - 97))
  else if 48 ≤ c ∧ c ≤ 57 then some (52 + (c - 48))
  else if c = 43 then some 62
  else if c = 47 then some 63
  else none

/-- `B64::encrypt`: STANDARD base64 encoding with `=` padding (61 is ASCII for
the padding character), 3 input bytes per 4 output characters. -/
def b64encode : List Nat → List Nat
  | [] => []
  | [a] => [b64Char (a / 4), b64Char (a % 4 * 16), 61, 61]
  | [a, b] => [b64Char (a / 4), b64Char (a % 4 * 16 + b / 16), b64Char (b % 16 * 4), 61]
  | a :: b :: c :: rest =>
      b64Char (a / 4) :: b64Char (a % 4 * 16 + b / 16) ::
        b64Char (b % 16 * 4 + c / 64) :: b64Char (c % 64) :: b64encode rest

/-- `B64::decrypt`: STANDARD base64 decoding; rejects characters off the
alphabet, lengths not a multiple of four, misplaced padding and non-zero
trailing bits, as the crate's STANDARD engine does. -/
def b64decode : List Nat → Option (List Nat)
  | [] => some []
  | c0 :: c1 :: c2 :: c3 :: rest =>
      match b64CharInv c0, b64CharInv c1 with
      | some n0, some n1 =>
          if c2 = 61 then
            if c3 = 61 ∧ rest = [] ∧ n1 % 16 = 0 then some [n0 * 4 + n1 / 16] else none
          else if c3 = 61 then
            match b64CharInv c2 with
            | some n2 =>
                if rest = [] ∧ n2 % 4 = 0 then
                  some [n0 * 4 + n1 / 16, n1 % 16 * 16 + n2 / 4]
                else none
            | none => none
          else
            match b64CharInv c2, b64CharInv c3 with
            | some n2, some n3 =>
                (b64decode rest).map
                  (fun tail => (n0 * 4 + n1 / 16) :: (n1 % 16 * 16 + n2 / 4) ::
                    (n2 % 4 * 64 + n3) :: tail)
            | _, _ => none
      | _, _ => none
  | _ => none

theorem b64CharInv_b64Char {n : Nat} (h : n < 64) : b64CharInv (b64Char n) = some n := by
  have : ∀ m : Fin 64, b64CharInv (b64Char m.val) = some m.val := by decide
  exact this ⟨n, h⟩

theorem b64Char_ne_pad {n : Nat} (h : n < 64) : b64Char n ≠ 61 := by
  have : ∀ m : Fin 64, b64Char m.val ≠ 61 := by decide
  exact this ⟨n, h⟩

/-- Round trip of the base64 layer on genuine byte lists: decoding an encoding
recovers the bytes exactly (model of `B64.decrypt(B64.encrypt(data)) == data`). -/
theorem b64decode_b64encode (l : List Nat) (h : ∀ b ∈ l, b < 256) :
    b64decode (b64encode l) = some l := by
  induction l using b64encode.induct with
  | case1 => rfl
  | case2 a =>
    have ha : a < 256 := h a (by simp)
    have h0 : a / 4 < 64 := by omega
    have h1 : a % 4 * 16 < 64 := by omega
    simp only [b64encode, b64decode, b64CharInv_b64Char h0, b64CharInv_b64Char h1]
    have hpad : a % 4 * 16 % 16 = 0 := by omega
    simp [hpad]
    omega
  | case3 a b =>
    have ha : a < 256 := h a (by simp)
    have hb : b < 256 := h b (by simp)
    have h0 : a / 4 < 64 := by omega
    have h1 : a % 4 * 16 + b / 16 < 64 := by omega
    have h2 : b % 16 * 4 < 64 := by omega
    simp only [b64encode, b64decode, b64CharInv_b64Char h0, b64CharInv_b64Char h1,
      b64CharInv_b64Char h2]
    have hne : ¬(b64Char (b % 16 * 4) = 61) := b64Char_ne_pad h2
    have hpad : b % 16 * 4 % 4 = 0 := by omega
    simp [hne, hpad]
    constructor
    · omega
    · omega
  | case4 a b c rest ih =>
    have ha : a < 256 := h a (by simp)
    have hb : b < 256 := h b (by simp)
    have hc : c < 256 := h c (by simp)
    have h0 : a / 4 < 64 := by omega
    have h1 : a % 4 * 16 + b / 16 < 64 := by omega
    have h2 : b % 16 * 4 + c / 64 < 64 := by omega
    have h3 : c % 64 < 64 := by omega
    have hrest : ∀ x ∈ rest, x < 256 := by
      intro x hx
      exact h x (by simp [hx])
    simp only [b64encode, b64decode, b64CharInv_b64Char h0, b64CharInv_b64Char h1,
      b64CharInv_b64Char h2, b64CharInv_b64Char h3, b64Char_ne_pad h2, b64Char_ne_pad h3,
      if_neg (b64Char_ne_pad h2), if_neg (b64Char_ne_pad h3), ih hrest, Option.map_some',
      if_false, List.cons.injEq, Option.some.injEq, eq_self_iff_true, and_true]
    have e1 : (a % 4 * 16 + b / 16) / 16 = a % 4 := by omega
    have e2 : (a % 4 * 16 + b / 16) % 16 = b / 16 := by omega
    have e3 : (b % 16 * 4 + c / 64) / 4 = b % 16 := by omega
    have e4 : (b % 16 * 4 + c / 64) % 4 = c / 64 := by omega
    rw [e1, e2, e3, e4]
    omega

/-! ## Store data model

`DbMap` / `DbListMap` from `src/src/lib.rs`:
`type DbMap = HashMap<String, Vec<u8>>;`
`type DbListMap = HashMap<String, Vec<Vec<u8>>>;` -/

/-- `Vec<u8>` payload bytes. -/
abbrev Bytes := List Nat

/-- `DbMap = HashMap<String, Vec<u8>>`. -/
abbrev DbMap := List (String × Bytes)

/-- `DbListMap = HashMap<String, Vec<Vec<u8>>>`. -/
abbrev DbListMap := List (String × List Bytes)

/-! ## A concrete whole-store payload codec

The serde back-ends (`serde_json`, `bincode`, `pot`, ...) are external crates,
not source of this repository.  The only property of them the spec relies on is
that decoding inverts encoding on the store's intermediate representation.  The
`unaryCodec` below is a concrete executable codec with exactly that property,
used to instantiate abstract back-end parameters in witnesses and
counterexamples.  Its output alphabet is `{0, 1}` (bytes `0x00`/`0x01`),
sharing the decisive trait of the real binary back-ends: raw output bytes that
are not base64 alphabet characters. -/

/-- Unary encoding of a natural: `n` ones then a zero terminator. -/
def encodeNat (n : Nat) : Bytes :=
  List.replicate n 1 ++ [0]

/-- Parse a leading unary natural, return it with the unconsumed rest. -/
def decodeNat : Bytes → Option (Nat × Bytes)
  | 0 :: rest => some (0, rest)
  | 1 :: rest => (decodeNat rest).map (fun p => (p.1 + 1, p.2))
  | _ => none

theorem decodeNat_encodeNat (n : Nat) (tail : Bytes) :
    decodeNat (encodeNat n ++ tail) = some (n, tail) := by
  induction n with
  | zero => rfl
  | succ m ih =>
    simp only [encodeNat] at ih ⊢
    rw [List.append_assoc, List.singleton_append] at ih
    simp only [List.replicate, List.cons_append, decodeNat, List.append_eq, List.append_assoc,
      List.singleton_append, List.nil_append, ih]
    rfl

/-- Length-prefixed sequence encoding. -/
def encodeListWith {α : Type} (enc : α → Bytes) (l : List α) : Bytes :=
  encodeNat l.length ++ (l.map enc).flatten

/-- Parse exactly `n` items with `dec`. -/
def decodeCount {α : Type} (dec : Bytes → Option (α × Bytes)) :
    Nat → Bytes → Option (List α × Bytes)
  | 0, rest => some ([], rest)
  | n + 1, rest =>
      match dec rest with
      | none => none
      | some (a, r) =>
          match decodeCount dec n r with
          | none => none
          | some (l, r2) => some (a :: l, r2)

/-- Parse a length-prefixed sequence. -/
def decodeListWith {α : Type} (dec : Bytes → Option (α × Bytes)) (l : Bytes) :
    Option (List α × Bytes) :=
  match decodeNat l with
  | none => none
  | some (n, rest) => decodeCount dec n rest

theorem decodeCount_append {α : Type} (dec : Bytes → Option (α × Bytes))
    (enc : α → Bytes) (hdec : ∀ a tail, dec (enc a ++ tail) = some (a, tail))
    (l : List α) (tail : Bytes) :
    decodeCount dec l.length ((l.map enc).flatten ++ tail) = some (l, tail) := by
  induction l with
  | nil => rfl
  | cons a rest ih =>
    simp only [List.map, List.flatten_cons, List.length, decodeCount, List.append_assoc, hdec, ih]

theorem decodeListWith_encodeListWith {α : Type} (dec : Bytes → Option (α × Bytes))
    (enc : α → Bytes) (hdec : ∀ a tail, dec (enc a ++ tail) = some (a, tail))
    (l : List α) (tail : Bytes) :
    decodeListWith dec (encodeListWith enc l ++ tail) = some (l, tail) := by
  simp only [encodeListWith, decodeListWith, List.append_assoc, decodeNat_encodeNat,
    decodeCount_append dec enc hdec]

/-- Encode a Rust `String` (its characters' code points, length-prefixed). -/
def encodeStr (s : String) : Bytes :=
  encodeListWith encodeNat (s.data.map Char.toNat)

/-- Parse a `String` back. -/
def decodeStr (l : Bytes) : Option (String × Bytes) :=
  match decodeListWith decodeNat l with
  | none => none
  | some (cs, rest) => some (String.mk (cs.map Char.ofNat), rest)

theorem decodeStr_encodeStr (s : String) (tail : Bytes) :
    decodeStr (encodeStr s ++ tail) = some (s, tail) := by
  have hmap : ∀ l : List Char, l.map (Char.ofNat ∘ Char.toNat) = l := by
    intro l
    induction l with
    | nil => rfl
    | cons c cs ih => simp [Function.comp, Char.ofNat_toNat, ih]
  simp only [encodeStr, decodeStr,
    decodeListWith_encodeListWith decodeNat encodeNat (fun a t => decodeNat_encodeNat a t)]
  simp only [List.map_map, hmap]

/-- Encode a payload `Vec<u8>`. -/
def encodeBytes (b : Bytes) : Bytes :=
  encodeListWith encodeNat b

/-- Parse a payload back. -/
def decodeBytes (l : Bytes) : Option (Bytes × Bytes) :=
  decodeListWith decodeNat l

theorem decodeBytes_encodeBytes (b : Bytes) (tail : Bytes) :
    decodeBytes (encodeBytes b ++ tail) = some (b, tail) :=
  decodeListWith_encodeListWith decodeNat encodeNat (fun a t => decodeNat_encodeNat a t) b tail

/-- Encode one scalar-map entry. -/
def encodeEntry (p : String × Bytes) : Bytes :=
  encodeStr p.1 ++ encodeBytes p.2

/-- Parse one scalar-map entry. -/
def decodeEntry (l : Bytes) : Option ((String × Bytes) × Bytes) :=
  match decodeStr l with
  | none => none
  | some (k, r) =>
      match decodeBytes r with
      | none => none
      | some (v, r2) => some ((k, v), r2)

theorem decodeEntry_encodeEntry (p : String × Bytes) (tail : Bytes) :
    decodeEntry (encodeEntry p ++ tail) = some (p, tail) := by
  obtain ⟨k, v⟩ := p
  simp only [encodeEntry, decodeEntry, List.append_assoc, decodeStr_encodeStr,
    decodeBytes_encodeBytes]

/-- Encode one list-map entry. -/
def encodeListEntry (p : String × List Bytes) : Bytes :=
  encodeStr p.1 ++ encodeListWith encodeBytes p.2

/-- Parse one list-map entry. -/
def decodeListEntry (l : Bytes) : Option ((String × List Bytes) × Bytes) :=
  match decodeStr l with
  | none => none
  | some (k, r) =>
      match decodeListWith decodeBytes r with
      | none => none
      | some (v, r2) => some ((k, v), r2)

theorem decodeListEntry_encodeListEntry (p : String × List Bytes) (tail : Bytes) :
    decodeListEntry (encodeListEntry p ++ tail) = some (p, tail) := by
  obtain ⟨k, v⟩ := p
  simp only [encodeListEntry, decodeListEntry, List.append_assoc, decodeStr_encodeStr,
    decodeListWith_encodeListWith decodeBytes encodeBytes
      (fun a t => decodeBytes_encodeBytes a t)]

/-- Abstract whole-store payload codec: the shape shared by the serde back-ends'
`(serialize, deserialize)` pair on the intermediate representation
`(HashMap, HashMap)`.  Nothing beyond this interface is assumed about them. -/
structure PairCodec where
  enc : DbMap → DbListMap → Bytes
  dec : Bytes → Option (DbMap × DbListMap)

/-- Round-trip law a correct back-end satisfies. -/
def PairCodec.Lawful (c : PairCodec) : Prop :=
  ∀ (m : DbMap) (lm : DbListMap), c.dec (c.enc m lm) = some (m, lm)

/-- The concrete executable back-end instance. -/
def unaryCodec : PairCodec where
  enc m lm := encodeListWith encodeEntry m ++ encodeListWith encodeListEntry lm
  dec b :=
    match decodeListWith decodeEntry b with
    | none => none
    | some (m, r) =>
        match decodeListWith decodeListEntry r with
        | none => none
        | some (lm, r2) => if r2 = [] then some (m, lm) else none

theorem unaryCodec_lawful : unaryCodec.Lawful := by
  intro m lm
  have h1 := decodeListWith_encodeListWith decodeEntry encodeEntry
    (fun a t => decodeEntry_encodeEntry a t) m (encodeListWith encodeListEntry lm)
  have h2 := decodeListWith_encodeListWith decodeListEntry encodeListEntry
    (fun a t => decodeListEntry_encodeListEntry a t) lm []
  rw [List.append_nil] at h2
  simp [unaryCodec, h1, h2]

/-- The concrete codec never emits anything but the bytes 0 and 1: in
particular its output is never a base64-alphabet character string. -/
theorem encodeNat_mem (n : Nat) : ∀ b ∈ encodeNat n, b = 0 ∨ b = 1 := by
  intro b hb
  simp only [encodeNat, List.mem_append, List.mem_replicate, List.mem_singleton] at hb
  rcases hb with h | h
  · exact Or.inr h.2
  · exact Or.inl h

/-! ## UTF-8 validity — model of `std::str::from_utf8` used by the text-based
serializer adapters (`src/src/ser/json.rs`, `src/src/ser/pot.rs`). -/

/-- Is `b` a UTF-8 continuation byte (`0x80..0xBF`)? -/
def isUtf8Cont (b : Nat) : Bool := 128 ≤ b && b ≤ 191

/-- UTF-8 validity of a byte sequence (`from_utf8(v).is_ok()`), including the
overlong-encoding, surrogate and `> U+10FFFF` rejections. -/
def isValidUtf8 : Bytes → Bool
  | [] => true
  | b :: rest =>
      if b ≤ 127 then isValidUtf8 rest
      else if 194 ≤ b && b ≤ 223 then
        match rest with
        | c1 :: r => isUtf8Cont c1 && isValidUtf8 r
        | [] => false
      else if b = 224 then
        match rest with
        | c1 :: c2 :: r => (160 ≤ c1 && c1 ≤ 191) && isUtf8Cont c2 && isValidUtf8 r
        | _ => false
      else if (225 ≤ b && b ≤ 236) || b = 238 || b = 239 then
        match rest with
        | c1 :: c2 :: r => isUtf8Cont c1 && isUtf8Cont c2 && isValidUtf8 r
        | _ => false
      else if b = 237 then
        match rest with
        | c1 :: c2 :: r => (128 ≤ c1 && c1 ≤ 159) && isUtf8Cont c2 && isValidUtf8 r
        | _ => false
      else if b = 240 then
        match rest with
        | c1 :: c2 :: c3 :: r =>
            (144 ≤ c1 && c1 ≤ 191) && isUtf8Cont c2 && isUtf8Cont c3 && isValidUtf8 r
        | _ => false
      else if 241 ≤ b && b ≤ 243 then
        match rest with
        | c1 :: c2 :: c3 :: r =>
            isUtf8Cont c1 && isUtf8Cont c2 && isUtf8Cont c3 && isValidUtf8 r
        | _ => false
      else if b = 244 then
        match rest with
        | c1 :: c2 :: c3 :: r =>
            (128 ≤ c1 && c1 ≤ 143) && isUtf8Cont c2 && isUtf8Cont c3 && isValidUtf8 r
        | _ => false
      else false

/-! ## Whole-store serializer adapters (`src/src/ser/`)

Each adapter is parameterised by the serde back-end `c : PairCodec` it calls;
in the model a Rust `&str` in the intermediate `HashMap<&str, &str>` is
represented by its UTF-8 byte contents, so `from_utf8` becomes a validity
check returning the same bytes and `as_bytes().to_vec()` the identity. -/

/-- `BinSer::serialize_db` (also the shape of `CborSer`/`BitSer`/`RonSer`):
`self.serialize_data(&(db_map, db_list_map))`. -/
def binSerializeDb (c : PairCodec) (m : DbMap) (lm : DbListMap) : Except Unit Bytes :=
  Except.ok (c.enc m lm)

/-- `BinSer::deserialized_db`: `deserialize_data`, `Err("Failed to deserialize
db")` on `None`. -/
def binDeserializedDb (c : PairCodec) (b : Bytes) : Except Unit (DbMap × DbListMap) :=
  match c.dec b with
  | some p => Except.ok p
  | none => Except.error ()

/-- `PotSer::serialize_db` (the conversion logic is identical in
`JsonSer::serialize_db`): scalar payloads go through `from_utf8(v)?`
(an error propagates), list payloads through `from_utf8(x).unwrap_or("")`
(silent replacement by the empty string), then the back-end encodes the
converted pair of maps. -/
def potSerializeDb (c : PairCodec) (m : DbMap) (lm : DbListMap) : Except Unit Bytes := do
  let m2 ← m.mapM (fun p =>
    if isValidUtf8 p.2 then Except.ok (p.1, p.2) else Except.error ())
  let lm2 := lm.map (fun p => (p.1, p.2.map (fun x => if isValidUtf8 x then x else [])))
  Except.ok (c.enc m2 lm2)

/-- `PotSer::deserialized_db`: back-end decode into string maps, then
`as_bytes().to_vec()` on every payload (identity in the model); decode
failure is an error. -/
def potDeserializedDb (c : PairCodec) (b : Bytes) : Except Unit (DbMap × DbListMap) :=
  match c.dec b with
  | some p => Except.ok p
  | none => Except.error ()

/-- `JsonSer::serialize_db` — same payload conversion as `PotSer`. -/
def jsonSerializeDb (c : PairCodec) (m : DbMap) (lm : DbListMap) : Except Unit Bytes :=
  potSerializeDb c m lm

/-- `JsonSer::deserialized_db`: additionally `from_utf8(ser_db)?` on the whole
payload before parsing. -/
def jsonDeserializedDb (c : PairCodec) (b : Bytes) : Except Unit (DbMap × DbListMap) :=
  if isValidUtf8 b then
    match c.dec b with
    | some p => Except.ok p
    | none => Except.error ()
  else Except.error ()

theorem exceptBind_ok {ε α β : Type} (a : α) (f : α → Except ε β) :
    (Except.ok a >>= f) = f a := rfl

theorem bin_round_trip (c : PairCodec) (hc : c.Lawful) (m : DbMap) (lm : DbListMap) :
    (binSerializeDb c m lm >>= binDeserializedDb c) = Except.ok (m, lm) := by
  rw [binSerializeDb, exceptBind_ok, binDeserializedDb, hc m lm]

theorem utf8Map_id_of_valid (l : List Bytes) (hv : ∀ x ∈ l, isValidUtf8 x = true) :
    l.map (fun x => if isValidUtf8 x then x else []) = l := by
  induction l with
  | nil => rfl
  | cons x xs ih =>
    have hx : isValidUtf8 x = true := hv x (by simp)
    have hxs : ∀ y ∈ xs, isValidUtf8 y = true := fun y hy => hv y (by simp [hy])
    simp [hx, ih hxs]

theorem utf8ListMap_id_of_valid (lm : DbListMap)
    (hlm : ∀ p ∈ lm, ∀ x ∈ p.2, isValidUtf8 x = true) :
    lm.map (fun p => (p.1, p.2.map (fun x => if isValidUtf8 x then x else []))) = lm := by
  induction lm with
  | nil => rfl
  | cons p rest ih =>
    have hp := utf8Map_id_of_valid p.2 (hlm p (by simp))
    have hrest : ∀ q ∈ rest, ∀ x ∈ q.2, isValidUtf8 x = true :=
      fun q hq => hlm q (by simp [hq])
    simp [hp, ih hrest]

theorem utf8MapM_ok_of_valid (m : DbMap) (hm : ∀ p ∈ m, isValidUtf8 p.2 = true) :
    (List.mapM (fun p => if isValidUtf8 p.2 then Except.ok (p.1, p.2) else Except.error ()) m
      : Except Unit DbMap) = Except.ok m := by
  induction m with
  | nil => rfl
  | cons p rest ih =>
    have hp : isValidUtf8 p.2 = true := hm p (by simp)
    have hrest : ∀ q ∈ rest, isValidUtf8 q.2 = true := fun q hq => hm q (by simp [hq])
    simp only [List.mapM_cons, hp, if_true, ih hrest]
    rfl

theorem potSerializeDb_of_valid (c : PairCodec) (m : DbMap) (lm : DbListMap)
    (hm : ∀ p ∈ m, isValidUtf8 p.2 = true)
    (hlm : ∀ p ∈ lm, ∀ x ∈ p.2, isValidUtf8 x = true) :
    potSerializeDb c m lm = Except.ok (c.enc m lm) := by
  rw [potSerializeDb]
  rw [show (List.mapM
      (fun p => if isValidUtf8 p.2 then Except.ok (p.1, p.2) else Except.error ()) m
      : Except Unit DbMap) = Except.ok m from utf8MapM_ok_of_valid m hm]
  rw [exceptBind_ok]
  rw [utf8ListMap_id_of_valid lm hlm]

/-- Round trip of the Pot (and, conversion-wise, Json) adapter under a lawful
back-end, provided every payload byte vector is valid UTF-8. -/
theorem pot_round_trip_of_valid (c : PairCodec) (hc : c.Lawful) (m : DbMap) (lm : DbListMap)
    (hm : ∀ p ∈ m, isValidUtf8 p.2 = true)
    (hlm : ∀ p ∈ lm, ∀ x ∈ p.2, isValidUtf8 x = true) :
    (potSerializeDb c m lm >>= potDeserializedDb c) = Except.ok (m, lm) := by
  rw [potSerializeDb_of_valid c m lm hm hlm, exceptBind_ok, potDeserializedDb, hc m lm]


/-! ## Dynamic store model (`src/src/nodb.rs`)

State-passing embedding of `NoDb`.  An `Env` supplies the two ambient effects
of one call: the clock reading `Instant::now()` and whether the
write-temp-then-rename pair of filesystem operations succeeds. -/

/-- `DumpPolicy` from `src/src/nodb.rs`. -/
inductive DumpPolicy : Type
  | never
  | auto
  | onCall
  | periodic (d : Nat)
deriving DecidableEq, Repr

/-- Error classes surfaced by the store (`anyhow::Error` collapsed to its
cause). -/
inductive DbErr : Type
  | encodeErr
  | ioErr
  | decodeErr
deriving DecidableEq, Repr

/-- Ambient effects of a single call. -/
structure Env : Type where
  now : Nat
  writeOk : Bool
deriving DecidableEq, Repr

/-- The mutable fields of `NoDb`, plus the backing file contents (`disk`,
`none` when the file does not exist). -/
structure DbState : Type where
  map : DbMap
  listMap : DbListMap
  disk : Option Bytes
  policy : DumpPolicy
  lastDump : Nat
deriving DecidableEq, Repr

/-- The `Serializer` held by a store: value-level codec (generic `V` fixed to
`Val`) and whole-store encoder, as used by the mutating operations. -/
structure Ser (Val : Type) : Type where
  serializeData : Val → Except Unit Bytes
  deserializeData : Bytes → Option Val
  serializeDb : DbMap → DbListMap → Except Unit Bytes

/-- `NoDb::dump`: no-op success under `Never`; otherwise serialize the whole
store, base64-encode, write a temp file and rename it over the backing file
(collapsed to one fallible write of `disk`), updating `last_dump` only under
`Periodic`. -/
def dump {Val : Type} (ser : Ser Val) (st : DbState) (env : Env) :
    Except DbErr Unit × DbState :=
  match st.policy with
  | DumpPolicy.never => (Except.ok (), st)
  | _ =>
      match ser.serializeDb st.map st.listMap with
      | Except.error _ => (Except.error DbErr.encodeErr, st)
      | Except.ok data =>
          if env.writeOk then
            (Except.ok (), { st with
              disk := some (b64encode data),
              lastDump := match st.policy with
                | DumpPolicy.periodic _ => env.now
                | _ => st.lastDump })
          else (Except.error DbErr.ioErr, st)

/-- `NoDb::dumpdb` (the internal policy check run after every mutation). -/
def dumpdb {Val : Type} (ser : Ser Val) (st : DbState) (env : Env) :
    Except DbErr Unit × DbState :=
  match st.policy with
  | DumpPolicy.auto => dump ser st env
  | DumpPolicy.periodic dur =>
      if env.now - st.lastDump ≥ dur then dump ser st env else (Except.ok (), st)
  | _ => (Except.ok (), st)

/-- `NoDb::set`. -/
def setOp {Val : Type} (ser : Ser Val) (st : DbState) (env : Env) (key : String)
    (v : Val) : Except DbErr Unit × DbState :=
  let st1 := { st with listMap := removeKey st.listMap key }
  match ser.serializeData v with
  | Except.error _ => (Except.error DbErr.encodeErr, st1)
  | Except.ok data =>
      let origVal := lookupMap st1.map key
      let st2 := { st1 with map := insertKey st1.map key data }
      match dumpdb ser st2 env with
      | (Except.ok _, st3) => (Except.ok (), st3)
      | (Except.error e, st3) =>
          (Except.error e,
            match origVal with
            | some val => { st3 with map := insertKey st3.map key val }
            | none => { st3 with map := removeKey st3.map key })

/-- `NoDb::get`. -/
def getOp {Val : Type} (ser : Ser Val) (st : DbState) (key : String) : Option Val :=
  match lookupMap st.map key with
  | some v => ser.deserializeData v
  | none => none

/-- `NoDb::exists`. -/
def existsOp (st : DbState) (key : String) : Bool :=
  containsKey st.map key || containsKey st.listMap key

/-- Second phase of `NoDb::rem` (the `list_map` removal). -/
def remListPhase {Val : Type} (ser : Ser Val) (st : DbState) (env : Env) (key : String)
    (rmMap : Bool) : Except DbErr Bool × DbState :=
  match lookupMap st.listMap key with
  | none => (Except.ok rmMap, st)
  | some l =>
      let st1 := { st with listMap := removeKey st.listMap key }
      match dumpdb ser st1 env with
      | (Except.ok _, st2) => (Except.ok true, st2)
      | (Except.error e, st2) =>
          (Except.error e, { st2 with listMap := insertKey st2.listMap key l })

/-- `NoDb::rem`. -/
def remOp {Val : Type} (ser : Ser Val) (st : DbState) (env : Env) (key : String) :
    Except DbErr Bool × DbState :=
  match lookupMap st.map key with
  | none => remListPhase ser st env key false
  | some val =>
      let st1 := { st with map := removeKey st.map key }
      match dumpdb ser st1 env with
      | (Except.ok _, st2) => remListPhase ser st2 env key true
      | (Except.error e, st2) =>
          (Except.error e, { st2 with map := insertKey st2.map key val })

/-- `NoDb::lcreate` (the returned `NoDbExt` handle carries no state beyond the
list name, so it is modelled as `Unit`).  A `dumpdb` failure propagates with
`?` and performs no rollback. -/
def lcreateOp {Val : Type} (ser : Ser Val) (st : DbState) (env : Env) (name : String) :
    Except DbErr Unit × DbState :=
  let st1 := { st with map := removeKey st.map name }
  let st2 := { st1 with listMap := insertKey st1.listMap name [] }
  match dumpdb ser st2 env with
  | (Except.ok _, st3) => (Except.ok (), st3)
  | (Except.error e, st3) => (Except.error e, st3)

/-- `NoDb::lexists`. -/
def lexistsOp (st : DbState) (name : String) : Bool :=
  containsKey st.listMap name

/-- Outcome of a call that can abort the process: `lextend` unwraps each item
serialization, so a value-encode failure panics instead of returning. -/
inductive CallResult (α : Type) : Type
  | panicked
  | returned (a : α)
deriving DecidableEq, Repr

/-- `NoDb::lextend`: serialize every item (`.unwrap()` → `panicked` on a
failure), append them, and on flush failure truncate back to the original
length and return `None`. -/
def lextendOp {Val : Type} (ser : Ser Val) (st : DbState) (env : Env) (name : String)
    (seq : List Val) : CallResult (Option Unit × DbState) :=
  match lookupMap st.listMap name with
  | none => CallResult.returned (none, st)
  | some list =>
      let origLen := list.length
      match seq.mapM ser.serializeData with
      | Except.error _ => CallResult.panicked
      | Except.ok serialized =>
          let st1 := { st with listMap := insertKey st.listMap name (list ++ serialized) }
          match dumpdb ser st1 env with
          | (Except.ok _, st2) => CallResult.returned (some (), st2)
          | (Except.error _, st2) =>
              CallResult.returned (none, { st2 with
                listMap := insertKey st2.listMap name ((list ++ serialized).take origLen) })

/-- `NoDb::ladd`: literally `self.lextend(name, &[value])`. -/
def laddOp {Val : Type} (ser : Ser Val) (st : DbState) (env : Env) (name : String)
    (v : Val) : CallResult (Option Unit × DbState) :=
  lextendOp ser st env name [v]

/-- `NoDb::lget`. -/
def lgetOp {Val : Type} (ser : Ser Val) (st : DbState) (name : String) (pos : Nat) :
    Option Val :=
  match lookupMap st.listMap name with
  | some list =>
      match list[pos]? with
      | some val => ser.deserializeData val
      | none => none
  | none => none

/-- `NoDb::llen`. -/
def llenOp (st : DbState) (name : String) : Nat :=
  match lookupMap st.listMap name with
  | some list => list.length
  | none => 0

/-- `Vec::remove(pos)` (for in-bounds `pos`). -/
def removeAt {α : Type} : List α → Nat → List α
  | [], _ => []
  | _ :: xs, 0 => xs
  | x :: xs, n + 1 => x :: removeAt xs n

/-- `Vec::insert(pos, a)` (for `pos ≤ len`). -/
def insertAt {α : Type} : List α → Nat → α → List α
  | l, 0, a => a :: l
  | [], _ + 1, a => [a]
  | x :: xs, n + 1, a => x :: insertAt xs n a

/-- `NoDb::lrem_list`. -/
def lremListOp {Val : Type} (ser : Ser Val) (st : DbState) (env : Env) (name : String) :
    Except DbErr Nat × DbState :=
  let res := llenOp st name
  match lookupMap st.listMap name with
  | some list =>
      let st1 := { st with listMap := removeKey st.listMap name }
      match dumpdb ser st1 env with
      | (Except.ok _, st2) => (Except.ok res, st2)
      | (Except.error e, st2) =>
          (Except.error e, { st2 with listMap := insertKey st2.listMap name list })
  | none => (Except.ok res, st)

/-- `NoDb::lpop`. -/
def lpopOp {Val : Type} (ser : Ser Val) (st : DbState) (env : Env) (name : String)
    (pos : Nat) : Option Val × DbState :=
  match lookupMap st.listMap name with
  | none => (none, st)
  | some list =>
      if pos < list.length then
        let res := list.getD pos []
        let st1 := { st with listMap := insertKey st.listMap name (removeAt list pos) }
        match dumpdb ser st1 env with
        | (Except.ok _, st2) => (ser.deserializeData res, st2)
        | (Except.error _, st2) =>
            (none, { st2 with
              listMap := insertKey st2.listMap name (insertAt (removeAt list pos) pos res) })
      else (none, st)

/-- `NoDb::lrem_value`. -/
def lremValueOp {Val : Type} (ser : Ser Val) (st : DbState) (env : Env) (name : String)
    (v : Val) : Except DbErr Bool × DbState :=
  match lookupMap st.listMap name with
  | none => (Except.ok false, st)
  | some list =>
      match ser.serializeData v with
      | Except.error _ => (Except.error DbErr.encodeErr, st)
      | Except.ok sv =>
          match List.findIdx? (fun x => x == sv) list with
          | none => (Except.ok false, st)
          | some pos =>
              let st1 := { st with listMap := insertKey st.listMap name (removeAt list pos) }
              match dumpdb ser st1 env with
              | (Except.ok _, st2) => (Except.ok true, st2)
              | (Except.error e, st2) =>
                  (Except.error e, { st2 with
                    listMap := insertKey st2.listMap name
                      (insertAt (removeAt list pos) pos sv) })

/-- `Drop for NoDb`: best-effort flush, skipped for `Never` and `OnCall`, any
error swallowed. -/
def dropOp {Val : Type} (ser : Ser Val) (st : DbState) (env : Env) : DbState :=
  match st.policy with
  | DumpPolicy.never => st
  | DumpPolicy.onCall => st
  | _ => (dump ser st env).2

/-- The byte pipeline of `NoDb::load`: read file contents, `B64.decrypt`, then
the codec's `deserialized_db`. -/
def loadPipeline {P : Type} (dser : Bytes → Except Unit P) (content : Bytes) :
    Except DbErr P :=
  match b64decode content with
  | none => Except.error DbErr.decodeErr
  | some dec =>
      match dser dec with
      | Except.ok p => Except.ok p
      | Except.error _ => Except.error DbErr.decodeErr


/-! ## Structural lemmas about the dump engine and list surgery -/

theorem dump_state {Val : Type} (ser : Ser Val) (st : DbState) (env : Env) :
    (dump ser st env).2.map = st.map ∧ (dump ser st env).2.listMap = st.listMap ∧
      (dump ser st env).2.policy = st.policy := by
  unfold dump
  split
  · exact ⟨rfl, rfl, rfl⟩
  · split
    · exact ⟨rfl, rfl, rfl⟩
    · split
      · exact ⟨rfl, rfl, rfl⟩
      · exact ⟨rfl, rfl, rfl⟩

theorem dumpdb_state {Val : Type} (ser : Ser Val) (st : DbState) (env : Env) :
    (dumpdb ser st env).2.map = st.map ∧ (dumpdb ser st env).2.listMap = st.listMap ∧
      (dumpdb ser st env).2.policy = st.policy := by
  unfold dumpdb
  split
  · exact dump_state ser st env
  · split
    · exact dump_state ser st env
    · exact ⟨rfl, rfl, rfl⟩
  · exact ⟨rfl, rfl, rfl⟩

theorem removeAt_length {α : Type} (l : List α) (pos : Nat) (h : pos < l.length) :
    (removeAt l pos).length = l.length - 1 := by
  induction l generalizing pos with
  | nil => simp at h
  | cons x xs ih =>
    cases pos with
    | zero => simp [removeAt]
    | succ n =>
      have hn : n < xs.length := by
        simpa using h
      simp only [removeAt, List.length_cons, ih n hn]
      omega

theorem removeAt_getD_lt {α : Type} (l : List α) (pos j : Nat) (d : α) (hj : j < pos) :
    (removeAt l pos).getD j d = l.getD j d := by
  induction l generalizing pos j with
  | nil => cases pos <;> rfl
  | cons x xs ih =>
    cases pos with
    | zero => omega
    | succ n =>
      cases j with
      | zero => rfl
      | succ m =>
        have hm : m < n := by omega
        simpa [removeAt] using ih n m hm

theorem removeAt_getD_ge {α : Type} (l : List α) (pos j : Nat) (d : α) (hj : pos ≤ j) :
    (removeAt l pos).getD j d = l.getD (j + 1) d := by
  induction l generalizing pos j with
  | nil => cases pos <;> rfl
  | cons x xs ih =>
    cases pos with
    | zero =>
      simp [removeAt]
    | succ n =>
      cases j with
      | zero => omega
      | succ m =>
        have hm : n ≤ m := by omega
        simpa [removeAt] using ih n m hm

theorem insertAt_removeAt {α : Type} (l : List α) (pos : Nat) (d : α)
    (h : pos < l.length) : insertAt (removeAt l pos) pos (l.getD pos d) = l := by
  induction l generalizing pos with
  | nil => simp at h
  | cons x xs ih =>
    cases pos with
    | zero => simp [removeAt, insertAt]
    | succ n =>
      have hn : n < xs.length := by simpa using h
      simpa [removeAt, insertAt] using ih n hn


/-! ## Concrete fixtures for witnesses and counterexamples -/

/-- A lawful concrete `Serializer` over `Val := Nat` (value codec `encodeNat`,
whole-store codec `unaryCodec`). -/
def natSer : Ser Nat where
  serializeData n := Except.ok (encodeNat n)
  deserializeData b :=
    match decodeNat b with
    | some (n, []) => some n
    | _ => none
  serializeDb m lm := Except.ok (unaryCodec.enc m lm)

theorem natSer_deserialize_serialize (n : Nat) :
    natSer.deserializeData (encodeNat n) = some n := by
  have h := decodeNat_encodeNat n []
  rw [List.append_nil] at h
  simp [natSer, h]

/-- A `Serializer` whose value-level encoder always fails (modelling a value
the selected format cannot represent). -/
def failSer : Ser Nat where
  serializeData _ := Except.error ()
  deserializeData _ := none
  serializeDb m lm := Except.ok (unaryCodec.enc m lm)

/-- If the head byte is off the base64 alphabet, decoding fails. -/
theorem b64decode_cons_nonalpha (c0 : Nat) (h : b64CharInv c0 = none) (l : Bytes) :
    b64decode (c0 :: l) = none := by
  rcases l with _ | ⟨c1, _ | ⟨c2, _ | ⟨c3, rest⟩⟩⟩
  · rfl
  · rfl
  · rfl
  · simp [b64decode, h]

/-! ## The claims -/

/-- Claim C10: for every store state, list name and value, `ladd(n, v)` is
extensionally equal to `lextend(n, [v])` — the same result and the same
resulting state. -/
theorem ladd_eq_lextend_singleton {Val : Type} (ser : Ser Val) (st : DbState) (env : Env)
    (name : String) (v : Val) :
    laddOp ser st env name v = lextendOp ser st env name [v] := rfl

/-- Claim C5: under dump policy `Never`, explicit `dump()` returns `Ok(())`
without touching the state (in particular the backing file `disk`), the
internal policy check after a mutation performs no write, and the drop-time
teardown does not attempt a flush. -/
theorem never_policy_no_write {Val : Type} (ser : Ser Val) (st : DbState) (env : Env)
    (h : st.policy = DumpPolicy.never) :
    dump ser st env = (Except.ok (), st) ∧ dumpdb ser st env = (Except.ok (), st) ∧
      dropOp ser st env = st := by
  refine ⟨?_, ?_, ?_⟩
  · unfold dump
    rw [h]
  · unfold dumpdb
    rw [h]
  · unfold dropOp
    rw [h]

/-- Witness for C5 at a concrete store. -/
theorem never_policy_no_write_witness :
    dump natSer ⟨[("a", [1])], [], none, DumpPolicy.never, 0⟩ ⟨7, true⟩ =
        (Except.ok (), ⟨[("a", [1])], [], none, DumpPolicy.never, 0⟩) ∧
      dumpdb natSer ⟨[("a", [1])], [], none, DumpPolicy.never, 0⟩ ⟨7, true⟩ =
        (Except.ok (), ⟨[("a", [1])], [], none, DumpPolicy.never, 0⟩) ∧
      dropOp natSer ⟨[("a", [1])], [], none, DumpPolicy.never, 0⟩ ⟨7, true⟩ =
        ⟨[("a", [1])], [], none, DumpPolicy.never, 0⟩ :=
  never_policy_no_write natSer ⟨[("a", [1])], [], none, DumpPolicy.never, 0⟩ ⟨7, true⟩ rfl

/-- Claim C2, counterexample: a file whose contents are exactly the raw
whole-store serialization of a binary-style codec does NOT load: `load` first
base64-decodes the file contents (`nodb.rs` line 98), and raw codec output is
not base64 text (here its first byte is 1, matching the real binary back-ends
whose output starts with a length byte 0 or 1 — not a base64 character
either).  The codec itself would have accepted those bytes, as the second
conjunct shows. -/
theorem load_raw_codec_bytes_fails :
    loadPipeline (binDeserializedDb unaryCodec)
        (unaryCodec.enc [("k", [49])] [("L", [[50]])]) = Except.error DbErr.decodeErr ∧
      binDeserializedDb unaryCodec (unaryCodec.enc [("k", [49])] [("L", [[50]])]) =
        Except.ok ([("k", [49])], [("L", [[50]])]) := by
  constructor
  · obtain ⟨rest, hrest⟩ :
        ∃ r, unaryCodec.enc [("k", [49])] [("L", [[50]])] = 1 :: r := ⟨_, rfl⟩
    rw [loadPipeline, hrest, b64decode_cons_nonalpha 1 (by decide) rest]
  · rw [binDeserializedDb, unaryCodec_lawful]

/-- Claim C2, amended: `load` hands the BASE64-DECODED file contents to the
codec (and `dump` writes the base64 encoding of the codec's output), so a file
containing the base64 encoding of whole-store bytes `content` loads exactly as
the codec decodes `content`. -/
theorem loadPipeline_b64encode {P : Type} (dser : Bytes → Except Unit P) (content : Bytes)
    (h : ∀ b ∈ content, b < 256) :
    loadPipeline dser (b64encode content) =
      match dser content with
      | Except.ok p => Except.ok p
      | Except.error _ => Except.error DbErr.decodeErr := by
  rw [loadPipeline, b64decode_b64encode content h]

/-- Witness for the amended C2 at concrete bytes. -/
theorem loadPipeline_b64encode_witness :
    loadPipeline (binDeserializedDb unaryCodec) (b64encode [0, 1]) =
      match binDeserializedDb unaryCodec [0, 1] with
      | Except.ok p => Except.ok p
      | Except.error _ => Except.error DbErr.decodeErr :=
  loadPipeline_b64encode (binDeserializedDb unaryCodec) [0, 1] (by decide)

/-- Claim C1, counterexample: with the Pot adapter (the Json adapter shares the
same conversion) over a lawful back-end, serializing a store whose list map
holds the non-UTF-8 payload `[255]` silently replaces it by the empty string
(`from_utf8(x).unwrap_or("")`, `src/src/ser/pot.rs` / `json.rs`), so the
round trip returns the maps with `[("L", [[]])]` instead of `[("L", [[255]])]`
— both maps non-empty as the claim requires. -/
theorem pot_round_trip_fails_nonutf8 :
    (potSerializeDb unaryCodec [("k", [49])] [("L", [[255]])] >>=
        potDeserializedDb unaryCodec) = Except.ok ([("k", [49])], [("L", [[]])]) ∧
      ([("L", [[]])] : DbListMap) ≠ [("L", [[255]])] := by
  constructor
  · have h1 : potSerializeDb unaryCodec [("k", [49])] [("L", [[255]])] =
        Except.ok (unaryCodec.enc [("k", [49])] [("L", [[]])]) := rfl
    rw [h1, exceptBind_ok, potDeserializedDb, unaryCodec_lawful]
  · decide

/-- Claim C1, amended: the serialization round trip
`deserialized_db(serialize_db(m1, m2)) == Ok((m1, m2))` holds for every codec
with a lawful serde back-end PROVIDED every payload byte vector is valid UTF-8
(the restriction the text-based Json/Pot adapters impose); the binary-style
adapters (`BinSer` and the codecs sharing its shape) satisfy it for arbitrary
byte payloads. -/
theorem store_round_trip_amended :
    (∀ (c : PairCodec), c.Lawful → ∀ (m : DbMap) (lm : DbListMap),
        (∀ p ∈ m, isValidUtf8 p.2 = true) →
        (∀ p ∈ lm, ∀ x ∈ p.2, isValidUtf8 x = true) →
        (potSerializeDb c m lm >>= potDeserializedDb c) = Except.ok (m, lm)) ∧
      (∀ (c : PairCodec), c.Lawful → ∀ (m : DbMap) (lm : DbListMap),
        (binSerializeDb c m lm >>= binDeserializedDb c) = Except.ok (m, lm)) :=
  ⟨fun c hc m lm hm hlm => pot_round_trip_of_valid c hc m lm hm hlm,
    fun c hc m lm => bin_round_trip c hc m lm⟩

/-- Witness for the amended C1 at the concrete back-end and non-empty maps
with UTF-8 payloads. -/
theorem store_round_trip_amended_witness :
    (potSerializeDb unaryCodec [("k", [49])] [("L", [[50]])] >>=
        potDeserializedDb unaryCodec) = Except.ok ([("k", [49])], [("L", [[50]])]) ∧
      (binSerializeDb unaryCodec [("k", [49])] [("L", [[50]])] >>=
        binDeserializedDb unaryCodec) = Except.ok ([("k", [49])], [("L", [[50]])]) :=
  ⟨store_round_trip_amended.1 unaryCodec unaryCodec_lawful [("k", [49])] [("L", [[50]])]
      (by decide) (by decide),
    store_round_trip_amended.2 unaryCodec unaryCodec_lawful [("k", [49])] [("L", [[50]])]⟩


theorem dumpdb_periodic_no_flush {Val : Type} (ser : Ser Val) (st : DbState) (env : Env)
    (d : Nat) (hpol : st.policy = DumpPolicy.periodic d)
    (hlt : env.now - st.lastDump < d) : dumpdb ser st env = (Except.ok (), st) := by
  unfold dumpdb
  rw [hpol]
  show (if env.now - st.lastDump ≥ d then dump ser st env else (Except.ok (), st)) =
    (Except.ok (), st)
  rw [if_neg (by omega)]

theorem dumpdb_periodic_flush {Val : Type} (ser : Ser Val) (st : DbState) (env : Env)
    (d : Nat) (hpol : st.policy = DumpPolicy.periodic d)
    (hge : env.now - st.lastDump ≥ d) : dumpdb ser st env = dump ser st env := by
  unfold dumpdb
  rw [hpol]
  show (if env.now - st.lastDump ≥ d then dump ser st env else (Except.ok (), st)) =
    dump ser st env
  rw [if_pos (by omega)]

theorem dump_success_fields {Val : Type} (ser : Ser Val) (st : DbState) (env : Env)
    (data : Bytes) (hpol : st.policy ≠ DumpPolicy.never)
    (hser : ser.serializeDb st.map st.listMap = Except.ok data)
    (hw : env.writeOk = true) :
    (dump ser st env).1 = Except.ok () ∧
      (dump ser st env).2.disk = some (b64encode data) ∧
      (dump ser st env).2.lastDump =
        (match st.policy with
          | DumpPolicy.periodic _ => env.now
          | _ => st.lastDump) := by
  unfold dump
  cases hp : st.policy with
  | never => exact absurd hp hpol
  | auto => simp [hser, hw]
  | onCall => simp [hser, hw]
  | periodic d => simp [hser, hw]

theorem dump_nonperiodic_lastDump {Val : Type} (ser : Ser Val) (st : DbState) (env : Env)
    (hpol : ∀ e, st.policy ≠ DumpPolicy.periodic e) :
    (dump ser st env).2.lastDump = st.lastDump := by
  unfold dump
  cases hp : st.policy with
  | never => rfl
  | auto =>
    cases hser : ser.serializeDb st.map st.listMap with
    | error u => rfl
    | ok data =>
      by_cases hw : env.writeOk = true
      · simp [hw]
      · simp [hw]
  | onCall =>
    cases hser : ser.serializeDb st.map st.listMap with
    | error u => rfl
    | ok data =>
      by_cases hw : env.writeOk = true
      · simp [hw]
      · simp [hw]
  | periodic e => exact absurd hp (hpol e)

/-- Claim C7: under `Periodic(d)`, a `set` performed when less than `d` has
elapsed since the last dump leaves the store (in particular the on-disk file)
unwritten, a `set` performed when at least `d` has elapsed writes the file
(and stamps the dump time), and `dump` updates the last-dump timestamp only in
the `Periodic` case. -/
theorem periodic_policy_behavior {Val : Type} (ser : Ser Val) (st : DbState) (env : Env)
    (d : Nat) (key : String) (v : Val) (data bs : Bytes)
    (hpol : st.policy = DumpPolicy.periodic d)
    (hv : ser.serializeData v = Except.ok data) :
    (env.now - st.lastDump < d → setOp ser st env key v =
        (Except.ok (), { st with listMap := removeKey st.listMap key,
                                 map := insertKey st.map key data })) ∧
      (env.now - st.lastDump ≥ d → env.writeOk = true →
        ser.serializeDb (insertKey st.map key data) (removeKey st.listMap key) =
          Except.ok bs →
        (setOp ser st env key v).2.disk = some (b64encode bs) ∧
          (setOp ser st env key v).2.lastDump = env.now) ∧
      (∀ st2 : DbState, (∀ e, st2.policy ≠ DumpPolicy.periodic e) →
        (dump ser st2 env).2.lastDump = st2.lastDump) := by
  refine ⟨?_, ?_, fun st2 h => dump_nonperiodic_lastDump ser st2 env h⟩
  · intro hlt
    have hdd := dumpdb_periodic_no_flush ser
      { st with listMap := removeKey st.listMap key,
                map := insertKey st.map key data } env d hpol hlt
    unfold setOp
    simp only [hv, hdd]
  · intro hge hw hser
    have hdd := dumpdb_periodic_flush ser
      { st with listMap := removeKey st.listMap key,
                map := insertKey st.map key data } env d hpol hge
    have hfields := dump_success_fields ser
      { st with listMap := removeKey st.listMap key,
                map := insertKey st.map key data } env bs
      (by show st.policy ≠ DumpPolicy.never; rw [hpol]; intro hcon; cases hcon) hser hw
    rcases hdu : dump ser { st with listMap := removeKey st.listMap key,
                                    map := insertKey st.map key data } env with ⟨r, st3⟩
    rw [hdu] at hdd hfields
    rcases r with u | u
    · exact absurd hfields.1 (by simp)
    · unfold setOp
      simp only [hv, hdd]
      refine ⟨hfields.2.1, ?_⟩
      have hlast := hfields.2.2
      rw [hpol] at hlast
      exact hlast

/-- Witness for C7: with `Periodic 10` and last dump at time 0, a `set` at
time 5 leaves the state untouched apart from the in-memory maps, and a `set`
at time 20 writes the base64-encoded serialized store and stamps time 20. -/
theorem periodic_policy_behavior_witness :
    (setOp natSer ⟨[], [], none, DumpPolicy.periodic 10, 0⟩ ⟨5, true⟩ "k" 3 =
        (Except.ok (), { (⟨[], [], none, DumpPolicy.periodic 10, 0⟩ : DbState) with
            listMap := removeKey [] "k", map := insertKey [] "k" (encodeNat 3) })) ∧
      ((setOp natSer ⟨[], [], none, DumpPolicy.periodic 10, 0⟩ ⟨20, true⟩ "k" 3).2.disk =
          some (b64encode (unaryCodec.enc (insertKey [] "k" (encodeNat 3))
            (removeKey [] "k"))) ∧
        (setOp natSer ⟨[], [], none, DumpPolicy.periodic 10, 0⟩ ⟨20, true⟩ "k" 3).2.lastDump
          = 20) :=
  ⟨(periodic_policy_behavior natSer ⟨[], [], none, DumpPolicy.periodic 10, 0⟩ ⟨5, true⟩
      10 "k" 3 (encodeNat 3) [] rfl rfl).1 (by decide),
    (periodic_policy_behavior natSer ⟨[], [], none, DumpPolicy.periodic 10, 0⟩ ⟨20, true⟩
      10 "k" 3 (encodeNat 3)
      (unaryCodec.enc (insertKey [] "k" (encodeNat 3)) (removeKey [] "k")) rfl rfl).2.1
      (by decide) rfl rfl⟩

/-- Shared core of the `set` rollback analysis: on a failing flush the call
errors and the scalar map is extensionally restored. -/
theorem setOp_flush_failure_scalar_restore {Val : Type} (ser : Ser Val) (st : DbState)
    (env : Env) (key : String) (v : Val) (data : Bytes) (e : DbErr)
    (hv : ser.serializeData v = Except.ok data)
    (hfail : (dumpdb ser { st with listMap := removeKey st.listMap key,
                                   map := insertKey st.map key data } env).1 =
      Except.error e) :
    (setOp ser st env key v).1 = Except.error e ∧
      (∀ k, lookupMap (setOp ser st env key v).2.map k = lookupMap st.map k) ∧
      getOp ser (setOp ser st env key v).2 key = getOp ser st key := by
  rcases hdd : dumpdb ser { st with listMap := removeKey st.listMap key,
                                    map := insertKey st.map key data } env with ⟨r, st3⟩
  rw [hdd] at hfail
  simp only at hfail
  subst hfail
  have hmap3 : st3.map = insertKey st.map key data :=
    (hdd ▸ dumpdb_state ser { st with listMap := removeKey st.listMap key,
                                       map := insertKey st.map key data } env).1
  have hmaps : ∀ k, lookupMap (setOp ser st env key v).2.map k = lookupMap st.map k := by
    intro k
    unfold setOp
    simp only [hv, hdd]
    rcases horig : lookupMap st.map key with _ | val
    · simp only [horig, hmap3]
      by_cases hk : k = key
      · rw [lookupMap_removeKey, if_pos hk, hk, horig]
      · rw [lookupMap_removeKey, if_neg hk, lookupMap_insertKey, if_neg hk]
    · simp only [horig, hmap3]
      by_cases hk : k = key
      · rw [lookupMap_insertKey, if_pos hk, hk, horig]
      · rw [lookupMap_insertKey, if_neg hk, lookupMap_insertKey, if_neg hk]
  refine ⟨?_, hmaps, ?_⟩
  · unfold setOp
    simp only [hv, hdd]
  · unfold getOp
    rw [hmaps key]

/-- Claim C3: if `set(k, v2)` triggers a flush that fails, the call returns
the flush error and the scalar map is extensionally restored to its pre-call
state — every key, `k` included, looks up to exactly what it did before, so a
previous `Some(v1)` is still returned and a previously absent key is absent
again. -/
theorem set_flush_failure_rolls_back_scalar {Val : Type} (ser : Ser Val) (st : DbState)
    (env : Env) (key : String) (v : Val) (data : Bytes) (e : DbErr)
    (hv : ser.serializeData v = Except.ok data)
    (hfail : (dumpdb ser { st with listMap := removeKey st.listMap key,
                                   map := insertKey st.map key data } env).1 =
      Except.error e) :
    (setOp ser st env key v).1 = Except.error e ∧
      (∀ k, lookupMap (setOp ser st env key v).2.map k = lookupMap st.map k) ∧
      getOp ser (setOp ser st env key v).2 key = getOp ser st key :=
  setOp_flush_failure_scalar_restore ser st env key v data e hv hfail

/-- Witness for C3: key `"k"` holds the encoding of 5, the flush fails with an
I/O error (policy `Auto`, write refused), and afterwards `get("k")` still
returns `Some 5`. -/
theorem set_flush_failure_rolls_back_scalar_witness :
    ((setOp natSer ⟨[("k", encodeNat 5)], [], none, DumpPolicy.auto, 0⟩ ⟨0, false⟩
        "k" 3).1 = Except.error DbErr.ioErr ∧
      (∀ k, lookupMap (setOp natSer ⟨[("k", encodeNat 5)], [], none, DumpPolicy.auto, 0⟩
          ⟨0, false⟩ "k" 3).2.map k =
        lookupMap [("k", encodeNat 5)] k) ∧
      getOp natSer (setOp natSer ⟨[("k", encodeNat 5)], [], none, DumpPolicy.auto, 0⟩
          ⟨0, false⟩ "k" 3).2 "k" =
        getOp natSer ⟨[("k", encodeNat 5)], [], none, DumpPolicy.auto, 0⟩ "k") ∧
      getOp natSer ⟨[("k", encodeNat 5)], [], none, DumpPolicy.auto, 0⟩ "k" = some 5 :=
  ⟨set_flush_failure_rolls_back_scalar natSer
      ⟨[("k", encodeNat 5)], [], none, DumpPolicy.auto, 0⟩ ⟨0, false⟩ "k" 3
      (encodeNat 3) DbErr.ioErr rfl rfl,
    by decide⟩

/-- Claim C9: when `set(k, v)` on a key holding a list triggers a failing
flush, the error is returned and the scalar map is restored, but the list
entry deleted under `k` is NOT restored: `lexists(k)` is false afterwards even
though the deletion was never persisted. -/
theorem set_flush_failure_loses_list {Val : Type} (ser : Ser Val) (st : DbState)
    (env : Env) (key : String) (v : Val) (data : Bytes) (l : List Bytes) (e : DbErr)
    (hlist : lookupMap st.listMap key = some l)
    (hv : ser.serializeData v = Except.ok data)
    (hfail : (dumpdb ser { st with listMap := removeKey st.listMap key,
                                   map := insertKey st.map key data } env).1 =
      Except.error e) :
    (setOp ser st env key v).1 = Except.error e ∧
      (∀ k, lookupMap (setOp ser st env key v).2.map k = lookupMap st.map k) ∧
      lexistsOp (setOp ser st env key v).2 key = false := by
  have hbase := setOp_flush_failure_scalar_restore ser st env key v data e hv hfail
  refine ⟨hbase.1, hbase.2.1, ?_⟩
  rcases hdd : dumpdb ser { st with listMap := removeKey st.listMap key,
                                    map := insertKey st.map key data } env with ⟨r, st3⟩
  rw [hdd] at hfail
  simp only at hfail
  subst hfail
  have hlm3 : st3.listMap = removeKey st.listMap key :=
    (hdd ▸ dumpdb_state ser { st with listMap := removeKey st.listMap key,
                                       map := insertKey st.map key data } env).2.1
  unfold setOp
  simp only [hv, hdd]
  rcases horig : lookupMap st.map key with _ | val
  · unfold lexistsOp containsKey
    rw [show ({ st3 with map := removeKey st3.map key } : DbState).listMap = st3.listMap
      from rfl, hlm3, lookupMap_removeKey_self]
    rfl
  · unfold lexistsOp containsKey
    rw [show ({ st3 with map := insertKey st3.map key val } : DbState).listMap = st3.listMap
      from rfl, hlm3, lookupMap_removeKey_self]
    rfl

/-- Witness for C9: key `"k"` holds the one-item list `[[7]]`, the flush fails,
and afterwards the list is gone while the scalar map is back to empty. -/
theorem set_flush_failure_loses_list_witness :
    (setOp natSer ⟨[], [("k", [[7]])], none, DumpPolicy.auto, 0⟩ ⟨0, false⟩ "k" 3).1 =
        Except.error DbErr.ioErr ∧
      (∀ k, lookupMap (setOp natSer ⟨[], [("k", [[7]])], none, DumpPolicy.auto, 0⟩
          ⟨0, false⟩ "k" 3).2.map k = lookupMap [] k) ∧
      lexistsOp (setOp natSer ⟨[], [("k", [[7]])], none, DumpPolicy.auto, 0⟩
          ⟨0, false⟩ "k" 3).2 "k" = false :=
  set_flush_failure_loses_list natSer ⟨[], [("k", [[7]])], none, DumpPolicy.auto, 0⟩
    ⟨0, false⟩ "k" 3 (encodeNat 3) [[7]] DbErr.ioErr rfl rfl rfl

/-- Claim C8: `lpop(L, i)` with `i` in bounds and a succeeding flush removes
exactly the item at position `i` (later items shift down by one, earlier items
stay) and returns the removed payload, deserialized; with the list missing or
`i` out of bounds nothing changes and `None` is returned; with a failing flush
the removed raw bytes are re-inserted at position `i` (the list is exactly the
original again) and `None` is returned. -/
theorem lpop_behavior {Val : Type} (ser : Ser Val) (st : DbState) (env : Env)
    (name : String) (pos : Nat) (l : List Bytes)
    (hl : lookupMap st.listMap name = some l) :
    (pos < l.length →
      (dumpdb ser { st with listMap := insertKey st.listMap name (removeAt l pos) }
          env).1 = Except.ok () →
      (lpopOp ser st env name pos).1 = ser.deserializeData (l.getD pos []) ∧
        lookupMap (lpopOp ser st env name pos).2.listMap name = some (removeAt l pos) ∧
        (removeAt l pos).length = l.length - 1 ∧
        (∀ j d, j < pos → (removeAt l pos).getD j d = l.getD j d) ∧
        (∀ j d, pos ≤ j → (removeAt l pos).getD j d = l.getD (j + 1) d)) ∧
      (l.length ≤ pos → lpopOp ser st env name pos = (none, st)) ∧
      (∀ e, pos < l.length →
        (dumpdb ser { st with listMap := insertKey st.listMap name (removeAt l pos) }
            env).1 = Except.error e →
        (lpopOp ser st env name pos).1 = none ∧
          lookupMap (lpopOp ser st env name pos).2.listMap name = some l) ∧
      (∀ st2 : DbState, lookupMap st2.listMap name = none →
        lpopOp ser st2 env name pos = (none, st2)) := by
  refine ⟨?_, ?_, ?_, ?_⟩
  · intro hpos hok
    rcases hdd : dumpdb ser
      { st with listMap := insertKey st.listMap name (removeAt l pos) } env with ⟨r, st2⟩
    rw [hdd] at hok
    simp only at hok
    subst hok
    have hlm2 : st2.listMap = insertKey st.listMap name (removeAt l pos) :=
      (hdd ▸ dumpdb_state ser _ env).2.1
    refine ⟨?_, ?_, removeAt_length l pos hpos,
      fun j d hj => removeAt_getD_lt l pos j d hj,
      fun j d hj => removeAt_getD_ge l pos j d hj⟩
    · unfold lpopOp
      simp only [hl, if_pos hpos, hdd]
    · unfold lpopOp
      simp only [hl, if_pos hpos, hdd]
      rw [hlm2, lookupMap_insertKey_self]
  · intro hge
    unfold lpopOp
    simp only [hl, if_neg (by omega : ¬pos < l.length)]
  · intro e hpos hfail
    rcases hdd : dumpdb ser
      { st with listMap := insertKey st.listMap name (removeAt l pos) } env with ⟨r, st2⟩
    rw [hdd] at hfail
    simp only at hfail
    subst hfail
    have hlm2 : st2.listMap = insertKey st.listMap name (removeAt l pos) :=
      (hdd ▸ dumpdb_state ser _ env).2.1
    refine ⟨?_, ?_⟩
    · unfold lpopOp
      simp only [hl, if_pos hpos, hdd]
    · unfold lpopOp
      simp only [hl, if_pos hpos, hdd]
      show lookupMap (insertKey st2.listMap name
        (insertAt (removeAt l pos) pos (l.getD pos []))) name = some l
      rw [lookupMap_insertKey_self, insertAt_removeAt l pos [] hpos]
  · intro st2 hnone
    unfold lpopOp
    simp only [hnone]

/-- Witness for C8: popping position 1 of the three-item list under `"L"`
(policy `OnCall`, so the flush trivially succeeds) returns the decoded middle
item `1` and leaves the first and last items, shifted together. -/
theorem lpop_behavior_witness :
    (lpopOp natSer ⟨[], [("L", [[0], [1, 0], [1, 1, 0]])], none, DumpPolicy.onCall, 0⟩
        ⟨0, true⟩ "L" 1).1 = some 1 ∧
      lookupMap (lpopOp natSer
          ⟨[], [("L", [[0], [1, 0], [1, 1, 0]])], none, DumpPolicy.onCall, 0⟩
          ⟨0, true⟩ "L" 1).2.listMap "L" = some [[0], [1, 1, 0]] := by
  have h := (lpop_behavior natSer
    ⟨[], [("L", [[0], [1, 0], [1, 1, 0]])], none, DumpPolicy.onCall, 0⟩
    ⟨0, true⟩ "L" 1 [[0], [1, 0], [1, 1, 0]] rfl).1 (by decide) rfl
  constructor
  · rw [h.1]
    decide
  · rw [h.2.1]
    decide

/-- Claim C6, counterexample: with a codec whose value encoder fails,
`lextend` on an existing list does not return the failure as an error value —
it panics (`.unwrap()` on `serialize_data` in `NoDb::lextend`,
`src/src/nodb.rs` line 347), aborting the process. -/
theorem lextend_panics_on_encode_failure :
    lextendOp failSer ⟨[], [("L", [])], none, DumpPolicy.onCall, 0⟩ ⟨0, true⟩ "L" [0] =
      CallResult.panicked := rfl

/-- Claim C6, amended: on a value-encode failure `set` returns the failure as
an error value and `lrem_value` returns it with the store untouched, but
`ladd` and `lextend` abort the process (panic) instead of returning it. -/
theorem encode_failure_behavior {Val : Type} (ser : Ser Val) (env : Env) :
    (∀ (st : DbState) (key : String) (v : Val), ser.serializeData v = Except.error () →
        (setOp ser st env key v).1 = Except.error DbErr.encodeErr) ∧
      (∀ (st : DbState) (name : String) (v : Val) (l : List Bytes),
        lookupMap st.listMap name = some l → ser.serializeData v = Except.error () →
        lremValueOp ser st env name v = (Except.error DbErr.encodeErr, st)) ∧
      (∀ (st : DbState) (name : String) (seq : List Val) (l : List Bytes),
        lookupMap st.listMap name = some l →
        seq.mapM ser.serializeData = Except.error () →
        lextendOp ser st env name seq = CallResult.panicked) ∧
      (∀ (st : DbState) (name : String) (v : Val) (l : List Bytes),
        lookupMap st.listMap name = some l → ser.serializeData v = Except.error () →
        laddOp ser st env name v = CallResult.panicked) := by
  have hext : ∀ (st : DbState) (name : String) (seq : List Val) (l : List Bytes),
      lookupMap st.listMap name = some l →
      seq.mapM ser.serializeData = Except.error () →
      lextendOp ser st env name seq = CallResult.panicked := by
    intro st name seq l hlist hseq
    unfold lextendOp
    simp only [hlist, hseq]
  refine ⟨?_, ?_, hext, ?_⟩
  · intro st key v hv
    unfold setOp
    simp only [hv]
  · intro st name v l hlist hv
    unfold lremValueOp
    simp only [hlist, hv]
  · intro st name v l hlist hv
    have hmap : [v].mapM ser.serializeData = Except.error () := by
      rw [List.mapM_cons, hv]
      rfl
    exact hext st name [v] l hlist hmap

/-- Witness for the amended C6, at the always-failing value encoder: `set`
returns the encode error, `lrem_value` returns it leaving the store as it was,
and `ladd` panics. -/
theorem encode_failure_behavior_witness :
    (setOp failSer ⟨[], [], none, DumpPolicy.onCall, 0⟩ ⟨0, true⟩ "k" 0).1 =
        Except.error DbErr.encodeErr ∧
      lremValueOp failSer ⟨[], [("L", [[1]])], none, DumpPolicy.onCall, 0⟩ ⟨0, true⟩
          "L" 0 =
        (Except.error DbErr.encodeErr,
          ⟨[], [("L", [[1]])], none, DumpPolicy.onCall, 0⟩) ∧
      laddOp failSer ⟨[], [("L", [])], none, DumpPolicy.onCall, 0⟩ ⟨0, true⟩ "L" 0 =
        CallResult.panicked :=
  ⟨(encode_failure_behavior failSer ⟨0, true⟩).1
      ⟨[], [], none, DumpPolicy.onCall, 0⟩ "k" 0 rfl,
    (encode_failure_behavior failSer ⟨0, true⟩).2.1
      ⟨[], [("L", [[1]])], none, DumpPolicy.onCall, 0⟩ "L" 0 [[1]] rfl rfl,
    (encode_failure_behavior failSer ⟨0, true⟩).2.2.2
      ⟨[], [("L", [])], none, DumpPolicy.onCall, 0⟩ "L" 0 [] rfl rfl⟩

/-! ## The key-namespace invariant -/

/-- No key denotes both a scalar entry and a list entry. -/
def DisjointKeys (st : DbState) : Prop :=
  ∀ k, lookupMap st.map k = none ∨ lookupMap st.listMap k = none

theorem setOp_disjoint {Val : Type} (ser : Ser Val) (st : DbState) (env : Env)
    (key : String) (v : Val) (hd : DisjointKeys st) :
    DisjointKeys (setOp ser st env key v).2 := by
  unfold setOp
  rcases hv : ser.serializeData v with u | data
  · simp only [hv]
    intro k
    by_cases hk : k = key
    · exact Or.inr (by rw [hk]; exact lookupMap_removeKey_self st.listMap key)
    · rcases hd k with h | h
      · exact Or.inl h
      · exact Or.inr (by rw [lookupMap_removeKey_ne st.listMap key k hk]; exact h)
  · rcases hdd : dumpdb ser { st with listMap := removeKey st.listMap key,
                                      map := insertKey st.map key data } env with ⟨r, st3⟩
    have hm3 : st3.map = insertKey st.map key data := (hdd ▸ dumpdb_state ser _ env).1
    have hl3 : st3.listMap = removeKey st.listMap key := (hdd ▸ dumpdb_state ser _ env).2.1
    rcases r with e | u
    · simp only [hv, hdd]
      rcases horig : lookupMap st.map key with _ | val
      · simp only [horig]
        intro k
        show lookupMap (removeKey st3.map key) k = none ∨ lookupMap st3.listMap k = none
        by_cases hk : k = key
        · exact Or.inl (by rw [hk]; exact lookupMap_removeKey_self st3.map key)
        · rcases hd k with h | h
          · left
            rw [lookupMap_removeKey_ne st3.map key k hk, hm3, lookupMap_insertKey,
              if_neg hk]
            exact h
          · right
            rw [hl3, lookupMap_removeKey, if_neg hk]
            exact h
      · simp only [horig]
        intro k
        show lookupMap (insertKey st3.map key val) k = none ∨ lookupMap st3.listMap k = none
        by_cases hk : k = key
        · right
          rw [hl3, lookupMap_removeKey, if_pos hk]
        · rcases hd k with h | h
          · left
            rw [lookupMap_insertKey, if_neg hk, hm3, lookupMap_insertKey, if_neg hk]
            exact h
          · right
            rw [hl3, lookupMap_removeKey, if_neg hk]
            exact h
    · simp only [hv, hdd]
      intro k
      by_cases hk : k = key
      · right
        rw [hl3, lookupMap_removeKey, if_pos hk]
      · rcases hd k with h | h
        · left
          rw [hm3, lookupMap_insertKey, if_neg hk]
          exact h
        · right
          rw [hl3, lookupMap_removeKey, if_neg hk]
          exact h

theorem remListPhase_disjoint {Val : Type} (ser : Ser Val) (st : DbState) (env : Env)
    (key : String) (b : Bool) (hd : DisjointKeys st) :
    DisjointKeys (remListPhase ser st env key b).2 := by
  unfold remListPhase
  rcases hlk : lookupMap st.listMap key with _ | l
  · simp only [hlk]
    exact hd
  · simp only [hlk]
    rcases hdd : dumpdb ser { st with listMap := removeKey st.listMap key } env
      with ⟨r, st2⟩
    have hm2 : st2.map = st.map := (hdd ▸ dumpdb_state ser _ env).1
    have hl2 : st2.listMap = removeKey st.listMap key := (hdd ▸ dumpdb_state ser _ env).2.1
    rcases r with e | u
    · simp only [hdd]
      intro k
      show lookupMap st2.map k = none ∨ lookupMap (insertKey st2.listMap key l) k = none
      by_cases hk : k = key
      · left
        rw [hm2, hk]
        rcases hd key with h | h
        · exact h
        · rw [hlk] at h
          cases h
      · rcases hd k with h | h
        · left
          rw [hm2]
          exact h
        · right
          rw [lookupMap_insertKey, if_neg hk, hl2, lookupMap_removeKey, if_neg hk]
          exact h
    · simp only [hdd]
      intro k
      by_cases hk : k = key
      · right
        rw [hl2, lookupMap_removeKey, if_pos hk]
      · rcases hd k with h | h
        · left
          rw [hm2]
          exact h
        · right
          rw [hl2, lookupMap_removeKey, if_neg hk]
          exact h

theorem remOp_disjoint {Val : Type} (ser : Ser Val) (st : DbState) (env : Env)
    (key : String) (hd : DisjointKeys st) :
    DisjointKeys (remOp ser st env key).2 := by
  unfold remOp
  rcases hmk : lookupMap st.map key with _ | val
  · simp only [hmk]
    exact remListPhase_disjoint ser st env key false hd
  · simp only [hmk]
    rcases hdd : dumpdb ser { st with map := removeKey st.map key } env with ⟨r, st2⟩
    have hm2 : st2.map = removeKey st.map key := (hdd ▸ dumpdb_state ser _ env).1
    have hl2 : st2.listMap = st.listMap := (hdd ▸ dumpdb_state ser _ env).2.1
    rcases r with e | u
    · simp only [hdd]
      intro k
      show lookupMap (insertKey st2.map key val) k = none ∨ lookupMap st2.listMap k = none
      by_cases hk : k = key
      · right
        rw [hl2, hk]
        rcases hd key with h | h
        · rw [hmk] at h
          cases h
        · exact h
      · rcases hd k with h | h
        · left
          rw [lookupMap_insertKey, if_neg hk, hm2, lookupMap_removeKey, if_neg hk]
          exact h
        · right
          rw [hl2]
          exact h
    · simp only [hdd]
      apply remListPhase_disjoint
      intro k
      by_cases hk : k = key
      · left
        rw [hm2, hk]
        exact lookupMap_removeKey_self st.map key
      · rcases hd k with h | h
        · left
          rw [hm2, lookupMap_removeKey_ne st.map key k hk]
          exact h
        · right
          rw [hl2]
          exact h

theorem lcreateOp_disjoint {Val : Type} (ser : Ser Val) (st : DbState) (env : Env)
    (name : String) (hd : DisjointKeys st) :
    DisjointKeys (lcreateOp ser st env name).2 := by
  unfold lcreateOp
  rcases hdd : dumpdb ser { st with map := removeKey st.map name,
                                    listMap := insertKey st.listMap name [] } env
    with ⟨r, st2⟩
  have hm2 : st2.map = removeKey st.map name := (hdd ▸ dumpdb_state ser _ env).1
  have hl2 : st2.listMap = insertKey st.listMap name [] :=
    (hdd ▸ dumpdb_state ser _ env).2.1
  have hmain : DisjointKeys st2 := by
    intro k
    by_cases hk : k = name
    · left
      rw [hm2, hk]
      exact lookupMap_removeKey_self st.map name
    · rcases hd k with h | h
      · left
        rw [hm2, lookupMap_removeKey_ne st.map name k hk]
        exact h
      · right
        rw [hl2, lookupMap_insertKey, if_neg hk]
        exact h
  rcases r with e | u
  · simp only [hdd]
    exact hmain
  · simp only [hdd]
    exact hmain

theorem lcreateOp_map_none {Val : Type} (ser : Ser Val) (st : DbState) (env : Env)
    (name : String) : lookupMap (lcreateOp ser st env name).2.map name = none := by
  unfold lcreateOp
  rcases hdd : dumpdb ser { st with map := removeKey st.map name,
                                    listMap := insertKey st.listMap name [] } env
    with ⟨r, st2⟩
  have hm2 : st2.map = removeKey st.map name := (hdd ▸ dumpdb_state ser _ env).1
  rcases r with e | u
  · simp only [hdd]
    rw [hm2]
    exact lookupMap_removeKey_self st.map name
  · simp only [hdd]
    rw [hm2]
    exact lookupMap_removeKey_self st.map name

theorem lextendOp_disjoint {Val : Type} (ser : Ser Val) (st : DbState) (env : Env)
    (name : String) (seq : List Val) (out : Option Unit × DbState) (hd : DisjointKeys st)
    (hret : lextendOp ser st env name seq = CallResult.returned out) :
    DisjointKeys out.2 := by
  unfold lextendOp at hret
  rcases hlk : lookupMap st.listMap name with _ | list
  · simp only [hlk] at hret
    injection hret with h
    subst h
    exact hd
  · simp only [hlk] at hret
    have hnm : lookupMap st.map name = none := by
      rcases hd name with h | h
      · exact h
      · rw [hlk] at h
        cases h
    rcases hseq : seq.mapM ser.serializeData with u | serialized
    · rw [hseq] at hret
      cases hret
    · rw [hseq] at hret
      rcases hdd : dumpdb ser
          { st with listMap := insertKey st.listMap name (list ++ serialized) } env
        with ⟨r, st2⟩
      have hm2 : st2.map = st.map := (hdd ▸ dumpdb_state ser _ env).1
      have hl2 : st2.listMap = insertKey st.listMap name (list ++ serialized) :=
        (hdd ▸ dumpdb_state ser _ env).2.1
      rcases r with e | u
      · simp only [hdd] at hret
        injection hret with h
        subst h
        intro k
        show lookupMap st2.map k = none ∨
          lookupMap (insertKey st2.listMap name ((list ++ serialized).take list.length)) k
            = none
        by_cases hk : k = name
        · left
          rw [hm2, hk]
          exact hnm
        · rcases hd k with h | h
          · left
            rw [hm2]
            exact h
          · right
            rw [lookupMap_insertKey, if_neg hk, hl2, lookupMap_insertKey, if_neg hk]
            exact h
      · simp only [hdd] at hret
        injection hret with h
        subst h
        intro k
        show lookupMap st2.map k = none ∨ lookupMap st2.listMap k = none
        by_cases hk : k = name
        · left
          rw [hm2, hk]
          exact hnm
        · rcases hd k with h | h
          · left
            rw [hm2]
            exact h
          · right
            rw [hl2, lookupMap_insertKey, if_neg hk]
            exact h

theorem lpopOp_disjoint {Val : Type} (ser : Ser Val) (st : DbState) (env : Env)
    (name : String) (pos : Nat) (hd : DisjointKeys st) :
    DisjointKeys (lpopOp ser st env name pos).2 := by
  unfold lpopOp
  rcases hlk : lookupMap st.listMap name with _ | list
  · simp only [hlk]
    exact hd
  · simp only [hlk]
    have hnm : lookupMap st.map name = none := by
      rcases hd name with h | h
      · exact h
      · rw [hlk] at h
        cases h
    by_cases hpos : pos < list.length
    · rw [if_pos hpos]
      rcases hdd : dumpdb ser
          { st with listMap := insertKey st.listMap name (removeAt list pos) } env
        with ⟨r, st2⟩
      have hm2 : st2.map = st.map := (hdd ▸ dumpdb_state ser _ env).1
      have hl2 : st2.listMap = insertKey st.listMap name (removeAt list pos) :=
        (hdd ▸ dumpdb_state ser _ env).2.1
      rcases r with e | u
      · simp only [hdd]
        intro k
        show lookupMap st2.map k = none ∨
          lookupMap (insertKey st2.listMap name
            (insertAt (removeAt list pos) pos (list.getD pos []))) k = none
        by_cases hk : k = name
        · left
          rw [hm2, hk]
          exact hnm
        · rcases hd k with h | h
          · left
            rw [hm2]
            exact h
          · right
            rw [lookupMap_insertKey, if_neg hk, hl2, lookupMap_insertKey, if_neg hk]
            exact h
      · simp only [hdd]
        intro k
        by_cases hk : k = name
        · left
          rw [hm2, hk]
          exact hnm
        · rcases hd k with h | h
          · left
            rw [hm2]
            exact h
          · right
            rw [hl2, lookupMap_insertKey, if_neg hk]
            exact h
    · rw [if_neg hpos]
      exact hd

theorem lremValueOp_disjoint {Val : Type} (ser : Ser Val) (st : DbState) (env : Env)
    (name : String) (v : Val) (hd : DisjointKeys st) :
    DisjointKeys (lremValueOp ser st env name v).2 := by
  unfold lremValueOp
  rcases hlk : lookupMap st.listMap name with _ | list
  · simp only [hlk]
    exact hd
  · simp only [hlk]
    have hnm : lookupMap st.map name = none := by
      rcases hd name with h | h
      · exact h
      · rw [hlk] at h
        cases h
    rcases hv : ser.serializeData v with u | sv
    · exact hd
    · rcases hidx : List.findIdx? (fun x => x == sv) list with _ | pos
      · simp only [hidx]
        exact hd
      · simp only [hidx]
        rcases hdd : dumpdb ser
            { st with listMap := insertKey st.listMap name (removeAt list pos) } env
          with ⟨r, st2⟩
        have hm2 : st2.map = st.map := (hdd ▸ dumpdb_state ser _ env).1
        have hl2 : st2.listMap = insertKey st.listMap name (removeAt list pos) :=
          (hdd ▸ dumpdb_state ser _ env).2.1
        rcases r with e | u
        · simp only [hdd]
          intro k
          show lookupMap st2.map k = none ∨
            lookupMap (insertKey st2.listMap name
              (insertAt (removeAt list pos) pos sv)) k = none
          by_cases hk : k = name
          · left
            rw [hm2, hk]
            exact hnm
          · rcases hd k with h | h
            · left
              rw [hm2]
              exact h
            · right
              rw [lookupMap_insertKey, if_neg hk, hl2, lookupMap_insertKey, if_neg hk]
              exact h
        · simp only [hdd]
          intro k
          by_cases hk : k = name
          · left
            rw [hm2, hk]
            exact hnm
          · rcases hd k with h | h
            · left
              rw [hm2]
              exact h
            · right
              rw [hl2, lookupMap_insertKey, if_neg hk]
              exact h

theorem lremListOp_disjoint {Val : Type} (ser : Ser Val) (st : DbState) (env : Env)
    (name : String) (hd : DisjointKeys st) :
    DisjointKeys (lremListOp ser st env name).2 := by
  unfold lremListOp
  rcases hlk : lookupMap st.listMap name with _ | list
  · simp only [hlk]
    exact hd
  · simp only [hlk]
    have hnm : lookupMap st.map name = none := by
      rcases hd name with h | h
      · exact h
      · rw [hlk] at h
        cases h
    rcases hdd : dumpdb ser { st with listMap := removeKey st.listMap name } env
      with ⟨r, st2⟩
    have hm2 : st2.map = st.map := (hdd ▸ dumpdb_state ser _ env).1
    have hl2 : st2.listMap = removeKey st.listMap name := (hdd ▸ dumpdb_state ser _ env).2.1
    rcases r with e | u
    · simp only [hdd]
      intro k
      show lookupMap st2.map k = none ∨
        lookupMap (insertKey st2.listMap name list) k = none
      by_cases hk : k = name
      · left
        rw [hm2, hk]
        exact hnm
      · rcases hd k with h | h
        · left
          rw [hm2]
          exact h
        · right
          rw [lookupMap_insertKey, if_neg hk, hl2, lookupMap_removeKey, if_neg hk]
          exact h
    · simp only [hdd]
      intro k
      by_cases hk : k = name
      · right
        rw [hl2, lookupMap_removeKey, if_pos hk]
      · rcases hd k with h | h
        · left
          rw [hm2]
          exact h
        · right
          rw [hl2, lookupMap_removeKey, if_neg hk]
          exact h

theorem dump_disjoint {Val : Type} (ser : Ser Val) (st : DbState) (env : Env)
    (hd : DisjointKeys st) : DisjointKeys (dump ser st env).2 := by
  intro k
  rw [(dump_state ser st env).1, (dump_state ser st env).2.1]
  exact hd k

theorem dumpdb_disjoint {Val : Type} (ser : Ser Val) (st : DbState) (env : Env)
    (hd : DisjointKeys st) : DisjointKeys (dumpdb ser st env).2 := by
  intro k
  rw [(dumpdb_state ser st env).1, (dumpdb_state ser st env).2.1]
  exact hd k

theorem dropOp_disjoint {Val : Type} (ser : Ser Val) (st : DbState) (env : Env)
    (hd : DisjointKeys st) : DisjointKeys (dropOp ser st env) := by
  unfold dropOp
  cases hp : st.policy with
  | never => exact hd
  | onCall => exact hd
  | auto => exact dump_disjoint ser st env hd
  | periodic d => exact dump_disjoint ser st env hd

theorem setOp_success_fields {Val : Type} (ser : Ser Val) (st : DbState) (env : Env)
    (key : String) (v : Val) (data : Bytes)
    (hv : ser.serializeData v = Except.ok data)
    (hok : (setOp ser st env key v).1 = Except.ok ()) :
    lookupMap (setOp ser st env key v).2.map key = some data ∧
      lookupMap (setOp ser st env key v).2.listMap key = none := by
  rcases hdd : dumpdb ser { st with listMap := removeKey st.listMap key,
                                    map := insertKey st.map key data } env with ⟨r, st3⟩
  have hm3 : st3.map = insertKey st.map key data := (hdd ▸ dumpdb_state ser _ env).1
  have hl3 : st3.listMap = removeKey st.listMap key := (hdd ▸ dumpdb_state ser _ env).2.1
  unfold setOp at hok ⊢
  simp only [hv, hdd] at hok ⊢
  rcases r with e | u
  · rcases horig : lookupMap st.map key with _ | val
    · simp only [horig] at hok
      cases hok
    · simp only [horig] at hok
      cases hok
  · exact ⟨by rw [hm3]; exact lookupMap_insertKey_self st.map key data,
      by rw [hl3]; exact lookupMap_removeKey_self st.listMap key⟩

/-- Claim C4: the key-namespace invariant — no key is simultaneously present
in the scalar map and the list map — is preserved by every operation (set,
rem, lcreate, lextend when it returns, lpop, lrem_value, lrem_list, dump, the
policy check and the drop-time flush); moreover after a successful
`set(k, v)`, `lexists(k)` is false and `get(k)` returns `Some v` (for a value
codec that round-trips `v`), and after `lcreate(k)` the scalar entry under `k`
is gone. -/
theorem key_namespace_invariant {Val : Type} (ser : Ser Val) (env : Env) :
    (∀ (st : DbState) (key : String) (v : Val), DisjointKeys st →
        DisjointKeys (setOp ser st env key v).2) ∧
      (∀ (st : DbState) (key : String), DisjointKeys st →
        DisjointKeys (remOp ser st env key).2) ∧
      (∀ (st : DbState) (name : String), DisjointKeys st →
        DisjointKeys (lcreateOp ser st env name).2) ∧
      (∀ (st : DbState) (name : String) (seq : List Val) (out : Option Unit × DbState),
        DisjointKeys st → lextendOp ser st env name seq = CallResult.returned out →
        DisjointKeys out.2) ∧
      (∀ (st : DbState) (name : String) (pos : Nat), DisjointKeys st →
        DisjointKeys (lpopOp ser st env name pos).2) ∧
      (∀ (st : DbState) (name : String) (v : Val), DisjointKeys st →
        DisjointKeys (lremValueOp ser st env name v).2) ∧
      (∀ (st : DbState) (name : String), DisjointKeys st →
        DisjointKeys (lremListOp ser st env name).2) ∧
      (∀ st : DbState, DisjointKeys st → DisjointKeys (dump ser st env).2) ∧
      (∀ st : DbState, DisjointKeys st → DisjointKeys (dumpdb ser st env).2) ∧
      (∀ st : DbState, DisjointKeys st → DisjointKeys (dropOp ser st env)) ∧
      (∀ (st : DbState) (key : String) (v : Val) (data : Bytes),
        ser.serializeData v = Except.ok data → ser.deserializeData data = some v →
        (setOp ser st env key v).1 = Except.ok () →
        lexistsOp (setOp ser st env key v).2 key = false ∧
          getOp ser (setOp ser st env key v).2 key = some v) ∧
      (∀ (st : DbState) (name : String),
        lookupMap (lcreateOp ser st env name).2.map name = none) := by
  refine ⟨fun st key v hd => setOp_disjoint ser st env key v hd,
    fun st key hd => remOp_disjoint ser st env key hd,
    fun st name hd => lcreateOp_disjoint ser st env name hd,
    fun st name seq out hd hret => lextendOp_disjoint ser st env name seq out hd hret,
    fun st name pos hd => lpopOp_disjoint ser st env name pos hd,
    fun st name v hd => lremValueOp_disjoint ser st env name v hd,
    fun st name hd => lremListOp_disjoint ser st env name hd,
    fun st hd => dump_disjoint ser st env hd,
    fun st hd => dumpdb_disjoint ser st env hd,
    fun st hd => dropOp_disjoint ser st env hd,
    ?_,
    fun st name => lcreateOp_map_none ser st env name⟩
  intro st key v data hv hdec hok
  have hfields := setOp_success_fields ser st env key v data hv hok
  constructor
  · unfold lexistsOp containsKey
    rw [hfields.2]
    rfl
  · unfold getOp
    rw [hfields.1]
    exact hdec

/-- Witness for C4: setting `"k"` (which currently holds a list) to `3` under
`Auto` policy succeeds, after which the list under `"k"` is gone and `get`
returns `Some 3`. -/
theorem key_namespace_invariant_witness :
    lexistsOp (setOp natSer ⟨[], [("k", [[7]])], none, DumpPolicy.auto, 0⟩ ⟨0, true⟩
        "k" 3).2 "k" = false ∧
      getOp natSer (setOp natSer ⟨[], [("k", [[7]])], none, DumpPolicy.auto, 0⟩ ⟨0, true⟩
        "k" 3).2 "k" = some 3 :=
  (key_namespace_invariant natSer ⟨0, true⟩).2.2.2.2.2.2.2.2.2.2.1
    ⟨[], [("k", [[7]])], none, DumpPolicy.auto, 0⟩ "k" 3 (encodeNat 3) rfl
    (natSer_deserialize_serialize 3) rfl

end NodbModel
